import Mathlib

/-!
Shallow embedding of the pyrevanced downloader/patcher script (src/main.py)
and verification of its specified behaviour.

Python strings are modelled as `List Char` (`Str`); the string helpers
below (`splitPred`, `pySplitChar`, `pyStrip`, `pyIsDigitStr`, `pyInt`)
mirror the Python primitives `str.split`, `str.strip`, `str.isdigit` and
`int` that the script uses, restricted to the ASCII inputs the script
processes.  Network and process side effects stay outside the model: each
embedded function covers the pure computation the script performs on the
data those effects deliver (manifest text, selection input, exit codes,
queue items, file-system contents).
-/

/-- Decidable equality for `Except`, so that runs of the fallible
operations below can be checked on concrete inputs. -/
instance {ε α : Type} [DecidableEq ε] [DecidableEq α] : DecidableEq (Except ε α) := fun a b =>
  match a, b with
  | Except.ok x, Except.ok y =>
    if h : x = y then isTrue (congrArg Except.ok h)
    else isFalse (fun hc => h (Except.ok.inj hc))
  | Except.error x, Except.error y =>
    if h : x = y then isTrue (congrArg Except.error h)
    else isFalse (fun hc => h (Except.error.inj hc))
  | Except.ok _, Except.error _ => isFalse (fun hc => Except.noConfusion hc)
  | Except.error _, Except.ok _ => isFalse (fun hc => Except.noConfusion hc)

/-- Python `str` values, modelled as their character lists. -/
abbrev Str := List Char

/-- Coerce a Lean string literal into the `Str` model. -/
def str (s : String) : Str := s.data

/-- Split a character list at every character satisfying `p`, keeping empty
pieces, like Python `str.split(sep)` for a one-character separator. -/
def splitPred (p : Char → Bool) : Str → List Str
  | [] => [[]]
  | c :: rest =>
    let r := splitPred p rest
    if p c then [] :: r
    else
      match r with
      | [] => [[c]]
      | t :: ts => (c :: t) :: ts

/-- Python `s.split(sep)` for a single separator character. -/
def pySplitChar (sep : Char) (s : Str) : List Str := splitPred (fun c => c = sep) s

/-- Python `s.strip()`: drop whitespace from both ends. -/
def pyStrip (s : Str) : Str :=
  ((s.dropWhile Char.isWhitespace).reverse.dropWhile Char.isWhitespace).reverse

/-- Python `s.isdigit()` on ASCII input: nonempty and all digits. -/
def pyIsDigitStr (s : Str) : Bool := !s.isEmpty && s.all Char.isDigit

/-- Python `int(s)` for a digit string. -/
def pyInt (s : Str) : Nat := s.foldl (fun acc c => acc * 10 + (c.toNat - '0'.toNat)) 0

/-- `pathlib` style `dir.joinpath(nm)`. -/
def pathJoin (dir nm : Str) : Str := dir ++ ['/'] ++ nm

/-- Python `sub in s` for strings: contiguous substring test. -/
def strContains (sub s : Str) : Bool := decide (sub <:+: s)

/-- A patch descriptor, the dict
`{'name': n, 'description': d, 'app': a, 'version': v}` built in
`Patches.__init__` (src/main.py line 78). -/
structure Patch where
  name : Str
  description : Str
  app : Str
  version : Str
deriving DecidableEq, Repr

/-! ## Patch catalog (`Patches`, src/main.py lines 67-93) -/

/-- `line.split('|')[1:-1]` (src/main.py line 72). -/
def splitFields (line : Str) : List Str := ((pySplitChar '|' line).drop 1).dropLast

/-- `x.strip().replace('`', '')` applied to one field (src/main.py line 74). -/
def cleanField (s : Str) : Str := (pyStrip s).filter (fun c => c ≠ '`')

/-- One iteration of the manifest loop (src/main.py lines 71-74): a line
contributes a row exactly when `line.split('|')[1:-1]` has length four; the
four fields are then stripped and stripped of backticks.  (Cleaning the
fields does not change how many there are, so testing the pattern after
cleaning is the same test.) -/
def parseRow (line : Str) : Option Patch :=
  match splitFields line with
  | [n, d, a, v] => some ⟨cleanField n, cleanField d, cleanField a, cleanField v⟩
  | _ => none

/-- `Patches.__init__` (src/main.py lines 67-82) run on the manifest lines:
collect the rows with exactly four fields, drop the first two of those
rows, then route each remaining row to the music list when its app field
contains `'music'`, and to the youtube list otherwise.  Returns
`(self._yt, self._ytm)`. -/
def Patches.init (manifest : List Str) : List Patch × List Patch :=
  let availablePatches := manifest.filterMap parseRow
  (availablePatches.drop 2).foldl
    (fun acc patch =>
      if strContains (str "music") patch.app then (acc.1, acc.2 ++ [patch])
      else (acc.1 ++ [patch], acc.2))
    ([], [])

/-- `Patches.version` (src/main.py lines 92-93):
`next(i['version'] for i in (self._ytm if music else self._yt) if i['version'] != 'all')`.
`none` models the `StopIteration` escape when no descriptor qualifies
(the spec's `NoVersionFoundError`). -/
def Patches.version (yt ytm : List Patch) (music : Bool) : Option Str :=
  ((if music then ytm else yt).find? (fun i => decide (i.version ≠ str "all"))).map
    (fun i => i.version)

/-! ## Selection resolution (`main`, src/main.py lines 147-155) -/

/-- Lines 147-148: split the raw input on single spaces, keep the tokens
with `i.strip()` truthy and `i.isdigit()` true, convert the stripped
tokens with `int`, and collapse to a set (`list(set(...))`).  `dedup`
models the set; the later uses are membership tests only, so the
unspecified iteration order of a Python set is immaterial. -/
def parseSelection (raw : Str) : List Nat :=
  let selectedPatches := pySplitChar ' ' raw
  (((selectedPatches.filter (fun i => !(pyStrip i).isEmpty && pyIsDigitStr i)).map
    (fun i => pyInt (pyStrip i))).dedup)

/-- Lines 150-153: fail when any selected index is out of range
(`x >= len(selected_app) or x < 0`; the second disjunct is vacuous since
`isdigit` admits only non-negative values), otherwise exclude every
descriptor whose index was not selected, in catalog order. -/
def resolve (catalog : List Patch) (raw : Str) : Except Str (List Str) :=
  let selectedPatches := parseSelection raw
  if selectedPatches.any (fun x => decide (catalog.length ≤ x) || decide (x < 0)) then
    Except.error (str "Some of the selected patches are not valid.")
  else
    Except.ok ((catalog.enum.filter (fun iv => decide (iv.1 ∉ selectedPatches))).map
      (fun iv => iv.2.name))

/-! ## External patcher invocation (`ArgParser`, src/main.py lines 96-121) -/

/-- `ArgParser.exclude` (lines 99-101) called once per excluded name in
order: each call extends `_EXCLUDED_PATCHES` with `['-e', name]`. -/
def excludeAll (names : List Str) : List Str :=
  names.foldl (fun acc n => acc ++ [str "-e", n]) []

/-- The argument list built by `ArgParser.run` (lines 105-110): the five
flags zipped with the five workspace files and flattened, then the
accumulated `_EXCLUDED_PATCHES` appended when nonempty. -/
def runArgs (tmp : Str) (excludedPatches : List Str) : List Str :=
  let args := [str "-jar", str "-a", str "-o", str "-b", str "-m"]
  let files := [str "cli.jar", str "youtube.apk", str "revanced.apk",
                str "patches.jar", str "integrations.apk"]
  let zipped := (args.zip (files.map (fun f => pathJoin tmp f))).flatMap
    (fun p => [p.1, p.2])
  if excludedPatches.isEmpty then zipped else zipped ++ excludedPatches

/-- The full command `['java', *args]` passed to `Popen` (line 112). -/
def runCommand (tmp : Str) (excludedPatches : List Str) : List Str :=
  str "java" :: runArgs tmp excludedPatches

/-- A flat file system: path-content pairs, the file state the script
manipulates through `pathlib`. -/
abbrev FS := List (Str × Str)

/-- Content at a path, `none` when no such file exists. -/
def fsLookup (fs : FS) (p : Str) : Option Str :=
  ((fs.find? (fun e => decide (e.1 = p)))).map (fun e => e.2)

/-- `Path.unlink`: remove every entry at `p`. -/
def fsRemove (fs : FS) (p : Str) : FS := fs.filter (fun e => decide (e.1 ≠ p))

/-- Create or overwrite the file at `p` with content `c`. -/
def fsPut (fs : FS) (p c : Str) : FS := (p, c) :: fsRemove fs p

/-- The tail of `ArgParser.run` (src/main.py lines 115-121), starting at
`process.wait()`: `exitCode` is the code `wait` returned (the code never
inspects it), then `revanced.apk` is moved out of the workspace:
`if target.is_file(): target.unlink()` followed by `apk.rename(target)`.
`Path.rename` on a missing source raises `FileNotFoundError`, modelled by
the error branch. -/
def runFinish (tmp cwd output : Str) (exitCode : Int) (fs : FS) : Except Str FS :=
  let apk := pathJoin tmp (str "revanced.apk")
  let target := pathJoin cwd output
  let fs1 := if (fsLookup fs target).isSome then fsRemove fs target else fs
  match fsLookup fs1 apk with
  | some content => Except.ok (fsPut (fsRemove fs1 apk) target content)
  | none => Except.error (str "FileNotFoundError")

/-- The default of the `output` parameter of `ArgParser.run` (line 104). -/
def runDefaultOutput : Str := str "revanced.apk"

/-! ## Downloader (src/main.py lines 19-64) -/

/-- `'youtube-music' if music else 'youtube'` (line 33). -/
def apkmirrorApp (music : Bool) : Str :=
  if music then str "youtube-music" else str "youtube"

/-- The destination file name `Downloader.apkmirror` hands to `_download`
(line 43): the literal `'youtube.apk'`, whatever the version and whichever
app variant was requested. -/
def apkmirrorDest (version : Str) (music : Bool) : Str := str "youtube.apk"

/-- One atomic step of the download pipeline's shared state
(`Downloader._QUEUE`, `_QUEUE_LENGTH` and the `report` loop). -/
inductive DlEvent where
  /-- A `_download` call begins: `cls._QUEUE_LENGTH += 1` (line 25). -/
  | start : Str → DlEvent
  /-- A `_download` call finishes writing and enqueues its result:
  `cls._QUEUE.put(...)` (line 29). -/
  | finish : Str → DlEvent
  /-- One iteration of the `report` loop (lines 53-64): dequeue, print,
  decrement `_QUEUE_LENGTH`, then run the `started` / stop check. -/
  | consume : DlEvent
deriving DecidableEq, Repr

/-- The shared state of `Downloader` plus the local state of `report`. -/
structure DlState where
  /-- `Downloader._QUEUE_LENGTH` (a Python `int`). -/
  queueLength : Int
  /-- The FIFO contents of `Downloader._QUEUE` (result names). -/
  queue : List Str
  /-- The `started` local of `report`. -/
  started : Bool
  /-- The results `report` has printed, in order. -/
  consumed : List Str
  /-- Whether `report` has hit its `break` and returned. -/
  done : Bool
deriving DecidableEq, Repr

/-- The state before any download starts. -/
def dlInit : DlState := ⟨0, [], false, [], false⟩

/-- Interleaving semantics of the pipeline: each event is one atomic
statement of src/main.py.  A `consume` with an empty queue or a finished
reporter leaves the state unchanged (the reporter is blocked in
`_QUEUE.get()`, or gone). -/
def dlStep (s : DlState) : DlEvent → DlState
  | DlEvent.start _ => { s with queueLength := s.queueLength + 1 }
  | DlEvent.finish n => { s with queue := s.queue ++ [n] }
  | DlEvent.consume =>
    if s.done then s
    else
      match s.queue with
      | [] => s
      | item :: rest =>
        let s1 : DlState :=
          { s with queue := rest, consumed := s.consumed ++ [item],
                   queueLength := s.queueLength - 1 }
        if !s.started then { s1 with started := true }
        else if s1.queueLength = 0 then { s1 with done := true }
        else s1

/-- Run a schedule of events from the initial state. -/
def dlRun (events : List DlEvent) : DlState := events.foldl dlStep dlInit

/-- A schedule is live when every `consume` in it fires with a nonempty
queue and an unfinished reporter: no consume in the schedule is a blocked
no-op, so the schedule is a genuine interleaving of the threads. -/
def dlConsumesEnabled : DlState → List DlEvent → Bool
  | _, [] => true
  | s, e :: rest =>
    (match e with
     | DlEvent.consume => !s.done && !s.queue.isEmpty
     | _ => true) && dlConsumesEnabled (dlStep s e) rest

/-- Number of `_download` starts in a schedule (tasks submitted). -/
def dlStarts (events : List DlEvent) : Nat :=
  (events.filter (fun e => match e with | DlEvent.start _ => true | _ => false)).length

/-- Number of completed downloads in a schedule. -/
def dlFinishes (events : List DlEvent) : Nat :=
  (events.filter (fun e => match e with | DlEvent.finish _ => true | _ => false)).length

/-! ## Spec-side readings, for refinement comparisons

These definitions follow the specification wording rather than the code;
each is compared against the corresponding embedded function above. -/

/-- Catalog loading as the specification words it: discard the first two
rows of the manifest, skip the malformed rows among the remainder, and
partition what is left by the secondary-variant marker. -/
def loadPerSpecOrder (manifest : List Str) : List Patch × List Patch :=
  let rows := (manifest.drop 2).filterMap parseRow
  (rows.filter (fun p => !strContains (str "music") p.app),
   rows.filter (fun p => strContains (str "music") p.app))

/-- Selection tokens as the specification words them: split the raw input
at every whitespace character and keep the values of the tokens that are
non-negative integers. -/
def wsDigitVals (raw : Str) : List Nat :=
  ((splitPred (fun c => c.isWhitespace) raw).filter pyIsDigitStr).map pyInt

/-! ## Concrete fixtures -/

/-- A primary-variant descriptor with the sentinel version. -/
def patchA : Patch := ⟨str "patch-a", str "desc a", str "youtube", str "all"⟩

/-- A primary-variant descriptor with a concrete version. -/
def patchB : Patch := ⟨str "patch-b", str "desc b", str "youtube", str "17.23"⟩

/-- A secondary-variant descriptor. -/
def patchC : Patch := ⟨str "patch-c", str "desc c", str "music", str "6.15"⟩

/-- A manifest whose first line is malformed: the two header rows the
loader drops are then well-formed data rows, not the first two lines. -/
def manifestWithBadFirstLine : List Str :=
  [str "junk",
   str "|n1|d1|youtube|all|",
   str "|n2|d2|youtube|all|",
   str "|n3|d3|youtube|all|"]

/-- A manifest in the shape the loader expects: header row, separator row,
one well-formed secondary-variant row, one well-formed primary-variant
row. -/
def manifestOneEach : List Str :=
  [str "|Name|Description|App|Version|",
   str "|----|----|----|----|",
   str "|some-patch|does things|music|6.15|",
   str "|other-patch|more things|youtube|all|"]

/-- A schedule of the download pipeline with four submitted tasks in which
each of the first two downloads completes and is reported before the next
download thread begins executing. -/
def reporterBugSchedule : List DlEvent :=
  [DlEvent.start (str "cli.jar"), DlEvent.finish (str "cli.jar"), DlEvent.consume,
   DlEvent.start (str "integrations.apk"), DlEvent.finish (str "integrations.apk"),
   DlEvent.consume,
   DlEvent.start (str "patches.jar"), DlEvent.finish (str "patches.jar"),
   DlEvent.start (str "youtube.apk"), DlEvent.finish (str "youtube.apk")]

/-- A file system on which the relocation step of `ArgParser.run` is
exercised: the produced artifact in the workspace, a stale file at the
destination, and an unrelated file. -/
def fsFixture : FS :=
  [(pathJoin (str "/tmp/ws") (str "revanced.apk"), str "NEWAPK"),
   (pathJoin (str "/home/user") (str "revanced.apk"), str "OLDAPK"),
   (str "/home/user/other.txt", str "KEEP")]

/-! ## Helper lemmas -/

/-- `excludeAll` from any accumulator appends one `-e NAME` pair per name. -/
lemma excludeAll_from (names : List Str) (acc : List Str) :
    names.foldl (fun a n => a ++ [str "-e", n]) acc
      = acc ++ names.flatMap (fun n => [str "-e", n]) := by
  induction names generalizing acc with
  | nil => simp
  | cons n ns ih => simp [ih, List.append_assoc]

/-- The argument list of `ArgParser.run`, written out. -/
lemma runArgs_excludeAll (tmp : Str) (names : List Str) :
    runArgs tmp (excludeAll names) =
      [str "-jar", pathJoin tmp (str "cli.jar"),
       str "-a", pathJoin tmp (str "youtube.apk"),
       str "-o", pathJoin tmp (str "revanced.apk"),
       str "-b", pathJoin tmp (str "patches.jar"),
       str "-m", pathJoin tmp (str "integrations.apk")]
      ++ names.flatMap (fun n => [str "-e", n]) := by
  have he : excludeAll names = names.flatMap (fun n => [str "-e", n]) := by
    simpa using excludeAll_from names []
  rw [he]
  cases names with
  | nil => rfl
  | cons n ns => rfl

/-- A fold that routes each element to one of two accumulating lists is the
pair of filters. -/
lemma foldl_route {α : Type} (p : α → Bool) (l : List α) (acc : List α × List α) :
    l.foldl (fun acc x => if p x then (acc.1, acc.2 ++ [x]) else (acc.1 ++ [x], acc.2)) acc
      = (acc.1 ++ l.filter (fun x => !p x), acc.2 ++ l.filter p) := by
  induction l generalizing acc with
  | nil => simp
  | cons x xs ih =>
    cases h : p x with
    | true => simp [h, ih, List.filter_cons, List.append_assoc]
    | false => simp [h, ih, List.filter_cons, List.append_assoc]

/-- Looking a path up after removing another. -/
lemma fsLookup_fsRemove (fs : FS) (p q : Str) :
    fsLookup (fsRemove fs p) q = if q = p then none else fsLookup fs q := by
  induction fs with
  | nil => simp [fsLookup, fsRemove]
  | cons e es ih =>
    by_cases hp : e.1 = p
    · have : fsRemove (e :: es) p = fsRemove es p := by
        simp [fsRemove, List.filter_cons, hp]
      rw [this, ih]
      by_cases hq : q = p
      · simp [hq]
      · have hne : ¬(e.1 = q) := by rw [hp]; exact fun h => hq h.symm
        simp [hq, fsLookup, List.find?_cons, hne]
    · have : fsRemove (e :: es) p = e :: fsRemove es p := by
        simp [fsRemove, List.filter_cons, hp]
      rw [this]
      by_cases he : e.1 = q
      · have hq : ¬(q = p) := fun h => hp (he.trans h)
        simp [fsLookup, List.find?_cons, he, hq]
      · simp only [fsLookup, List.find?_cons, he, decide_eq_true_eq, if_neg he]
        exact ih

/-- Looking a path up after writing another. -/
lemma fsLookup_fsPut (fs : FS) (p c q : Str) :
    fsLookup (fsPut fs p c) q = if q = p then some c else fsLookup fs q := by
  by_cases h : q = p
  · simp [fsPut, fsLookup, List.find?_cons, h]
  · have hne : ¬(p = q) := fun hc => h hc.symm
    simp only [fsPut, fsLookup, List.find?_cons, hne, decide_eq_true_eq, if_neg hne, if_neg h]
    have := fsLookup_fsRemove fs p q
    rw [if_neg h] at this
    simpa [fsLookup] using this

/-- `find?` over a list whose prefix all fails the predicate returns the
first match. -/
lemma find?_first {α : Type} (pred : α → Bool) (pre : List α) (x : α) (post : List α)
    (hpre : ∀ q ∈ pre, pred q = false) (hx : pred x = true) :
    List.find? pred (pre ++ x :: post) = some x := by
  induction pre with
  | nil => simp [List.find?_cons, hx]
  | cons q qs ih =>
    have hq := hpre q (List.mem_cons_self q qs)
    simp only [List.cons_append, List.find?_cons, hq]
    exact ih (fun r hr => hpre r (List.mem_cons_of_mem q hr))

/-- Mapping a function of the element over an enumeration forgets the
indices. -/
lemma enumFrom_map_snd_apply {α β : Type} (f : α → β) (l : List α) (n : Nat) :
    (l.enumFrom n).map (fun iv => f iv.2) = l.map f := by
  induction l generalizing n with
  | nil => rfl
  | cons x xs ih => simp [List.enumFrom, ih]

/-- Indices in an enumeration from `n` are below `n` plus the length. -/
lemma mem_enumFrom_lt {α : Type} (l : List α) (n : Nat) (iv : Nat × α)
    (h : iv ∈ l.enumFrom n) : iv.1 < n + l.length := by
  induction l generalizing n with
  | nil => cases h
  | cons x xs ih =>
    rcases List.mem_cons.mp h with h1 | h1
    · rw [h1]; simp
    · have := ih (n + 1) h1
      simp only [List.length_cons]
      omega

/-- The embedded exclusion list, rephrased over the name list: filtering
the enumerated catalog and taking names is filtering the enumerated name
list. -/
lemma exclusion_names_from (l : List Patch) (sel : List Nat) (n : Nat) :
    ((l.enumFrom n).filter (fun iv => decide (iv.1 ∉ sel))).map (fun iv => iv.2.name)
      = (((l.map Patch.name).enumFrom n).filter (fun p => decide (p.1 ∉ sel))).map Prod.snd := by
  induction l generalizing n with
  | nil => rfl
  | cons x xs ih =>
    simp only [List.map_cons, List.enumFrom, List.filter_cons]
    by_cases h : n ∈ sel
    · simp only [h, not_true_eq_false, decide_False]
      simpa using ih (n + 1)
    · simp only [h, not_false_eq_true, decide_True, List.map_cons]
      simpa using ih (n + 1)

/-- A selection whose every member is in range makes the bounds check pass. -/
lemma any_oob_false (catalog : List Patch) (sel : List Nat)
    (h : ∀ i ∈ sel, i < catalog.length) :
    sel.any (fun x => decide (catalog.length ≤ x) || decide (x < 0)) = false := by
  apply Bool.eq_false_iff.mpr
  intro hc
  rw [List.any_eq_true] at hc
  obtain ⟨x, hx, hfx⟩ := hc
  have hlt := h x hx
  simp only [Bool.or_eq_true, decide_eq_true_eq] at hfx
  rcases hfx with h1 | h1 <;> omega

/-- A selection holding an out-of-range member makes the bounds check fire. -/
lemma any_oob_true (catalog : List Patch) (sel : List Nat) (i : Nat)
    (hi : i ∈ sel) (hle : catalog.length ≤ i) :
    sel.any (fun x => decide (catalog.length ≤ x) || decide (x < 0)) = true :=
  List.any_eq_true.mpr ⟨i, hi, by simp [hle]⟩

/-! ## Claim theorems -/

/-- C1: for every valid selection input, the exclusion set is exactly the
names of the descriptors whose index was not among the parsed selected
indices, in catalog order; the empty selection excludes every name, a
selection covering every index excludes nothing, and on a 3-descriptor
catalog the input "0 2" excludes exactly the name of descriptor 1. -/
theorem c1_resolve (catalog : List Patch) (raw : Str) :
    (∀ excl, resolve catalog raw = Except.ok excl →
      excl = (((catalog.map Patch.name).enum.filter
        (fun p => decide (p.1 ∉ parseSelection raw))).map Prod.snd))
    ∧ resolve catalog (str "") = Except.ok (catalog.map Patch.name)
    ∧ ((∀ i, i ∈ parseSelection raw ↔ i < catalog.length) →
        resolve catalog raw = Except.ok [])
    ∧ (∀ a b c : Patch, resolve [a, b, c] (str "0 2") = Except.ok [b.name]) := by
  refine ⟨?_, ?_, ?_, fun a b c => rfl⟩
  · intro excl hok
    by_cases hany : (parseSelection raw).any
        (fun x => decide (catalog.length ≤ x) || decide (x < 0)) = true
    · simp only [resolve, hany, if_true] at hok
      exact absurd hok (fun hc => Except.noConfusion hc)
    · rw [Bool.not_eq_true] at hany
      simp only [resolve, hany, Bool.false_eq_true, if_false, Except.ok.injEq] at hok
      rw [← hok]
      simpa only [List.enum] using
        exclusion_names_from catalog (parseSelection raw) 0
  · have h0 : parseSelection (str "") = [] := by decide
    simp only [resolve, h0, List.any_nil, Bool.false_eq_true, if_false]
    congr 1
    rw [List.filter_eq_self.mpr (fun a _ => by simp)]
    simpa only [List.enum] using enumFrom_map_snd_apply Patch.name catalog 0
  · intro h
    have hany := any_oob_false catalog (parseSelection raw) (fun i hi => (h i).mp hi)
    simp only [resolve, hany, Bool.false_eq_true, if_false]
    have hnil : catalog.enum.filter (fun iv => decide (iv.1 ∉ parseSelection raw)) = [] := by
      apply List.filter_eq_nil_iff.mpr
      intro iv hiv
      have hb : iv.1 < catalog.length := by
        simpa using mem_enumFrom_lt catalog 0 iv (by simpa only [List.enum] using hiv)
      have hmem : iv.1 ∈ parseSelection raw := (h iv.1).mpr hb
      simp [hmem]
    rw [hnil]
    rfl

/-- C1 witness: the theorem applied to the 3-descriptor catalog and input
"0 2". -/
theorem c1_resolve_witness :
    resolve [patchA, patchB, patchC] (str "0 2") = Except.ok [patchB.name]
    ∧ ((([patchA, patchB, patchC].map Patch.name).enum.filter
        (fun p => decide (p.1 ∉ parseSelection (str "0 2")))).map Prod.snd)
      = [patchB.name] := by
  have h := c1_resolve [patchA, patchB, patchC] (str "0 2")
  exact ⟨h.2.2.2 patchA patchB patchC, (h.1 [patchB.name] (by decide)).symm⟩

/-- C3 counterexample: the input "0 x" holds the malformed token "x", yet
selection resolution over a one-descriptor catalog succeeds (the token is
silently dropped and index 0 is kept), so no InvalidSelectionError arises. -/
theorem c3_counterexample : resolve [patchA] (str "0 x") = Except.ok [] := by decide

/-- C3 amended: resolution fails (with the invalid-selection error and no
exclusion set produced) exactly when some parsed index is out of range;
malformed tokens never enter the parsed selection, so they never cause a
failure by themselves. -/
theorem c3_amended (catalog : List Patch) (raw : Str) :
    ((∃ i ∈ parseSelection raw, catalog.length ≤ i) →
      resolve catalog raw
        = Except.error (str "Some of the selected patches are not valid."))
    ∧ ((∀ i ∈ parseSelection raw, i < catalog.length) →
      resolve catalog raw
        = Except.ok ((catalog.enum.filter
            (fun iv => decide (iv.1 ∉ parseSelection raw))).map (fun iv => iv.2.name))) := by
  constructor
  · rintro ⟨i, hi, hle⟩
    have hany := any_oob_true catalog (parseSelection raw) i hi hle
    simp only [resolve, hany, if_true]
  · intro h
    have hany := any_oob_false catalog (parseSelection raw) h
    simp only [resolve, hany, Bool.false_eq_true, if_false]

/-- C3 witness: the amended theorem at a one-descriptor catalog, once with
the out-of-range input "5" and once with the in-range input "0". -/
theorem c3_amended_witness :
    resolve [patchA] (str "5")
      = Except.error (str "Some of the selected patches are not valid.")
    ∧ resolve [patchA] (str "0") = Except.ok [] := by
  have h1 := (c3_amended [patchA] (str "5")).1 (by decide)
  have h2 := (c3_amended [patchA] (str "0")).2 (by decide)
  exact ⟨h1, h2.trans (by decide)⟩

/-- C9 counterexample: the inputs "0<TAB>1" and "0 1" have the same
whitespace-separated non-negative-integer token values, yet resolution
differs, because tokenization splits on single spaces only: the tab-joined
token is treated as malformed and dropped, leaving the empty selection. -/
theorem c9_counterexample :
    wsDigitVals (str "0\t1") = [0, 1] ∧ wsDigitVals (str "0 1") = [0, 1]
    ∧ resolve [patchA, patchB] (str "0\t1") ≠ resolve [patchA, patchB] (str "0 1") := by
  decide

/-- C9 amended: resolution is insensitive to token order, duplication and
interspersed non-digit tokens: two raw inputs whose space-separated digit
tokens denote the same set of indices resolve identically. -/
theorem c9_amended (catalog : List Patch) (a b : Str)
    (h : (parseSelection a).toFinset = (parseSelection b).toFinset) :
    resolve catalog a = resolve catalog b := by
  have hmem : ∀ n : Nat, n ∈ parseSelection a ↔ n ∈ parseSelection b := by
    intro n
    rw [← List.mem_toFinset, h, List.mem_toFinset]
  have hany : ∀ f : Nat → Bool, (parseSelection a).any f = (parseSelection b).any f := by
    intro f
    by_cases ha : (parseSelection a).any f = true
    · rw [ha]
      symm
      rw [List.any_eq_true] at ha ⊢
      obtain ⟨x, hx, hfx⟩ := ha
      exact ⟨x, (hmem x).mp hx, hfx⟩
    · rw [Bool.not_eq_true] at ha
      rw [ha]
      symm
      apply Bool.eq_false_iff.mpr
      intro hc
      rw [List.any_eq_true] at hc
      obtain ⟨x, hx, hfx⟩ := hc
      have hc' : (parseSelection a).any f = true :=
        List.any_eq_true.mpr ⟨x, (hmem x).mpr hx, hfx⟩
      rw [ha] at hc'
      exact absurd hc' (by decide)
  simp only [resolve]
  rw [hany (fun x => decide (catalog.length ≤ x) || decide (x < 0))]
  by_cases hb : (parseSelection b).any
      (fun x => decide (catalog.length ≤ x) || decide (x < 0)) = true
  · rw [if_pos hb, if_pos hb]
  · rw [Bool.not_eq_true] at hb
    rw [hb]
    simp only [Bool.false_eq_true, if_false, Except.ok.injEq]
    congr 1
    apply List.filter_congr
    intro x _
    exact decide_eq_decide.mpr (not_congr (hmem x.1))

/-- C9 witness: the amended theorem applied to the inputs "2 1 1 x" and
"1 2" over a 3-descriptor catalog. -/
theorem c9_amended_witness :
    resolve [patchA, patchB, patchC] (str "2 1 1 x")
      = resolve [patchA, patchB, patchC] (str "1 2") :=
  c9_amended [patchA, patchB, patchC] (str "2 1 1 x") (str "1 2") (by decide)

/-- Looking the artifact up survives the conditional unlink of a distinct
destination. -/
lemma fs1_lookup_apk (fs : FS) (apk target content : Str)
    (hsrc : fsLookup fs apk = some content) (hne : apk ≠ target) :
    fsLookup (if (fsLookup fs target).isSome then fsRemove fs target else fs) apk
      = some content := by
  by_cases hT : (fsLookup fs target).isSome
  · rw [if_pos hT, fsLookup_fsRemove, if_neg hne]
    exact hsrc
  · rw [if_neg hT]
    exact hsrc

/-- C2: with four tasks submitted and four results produced, there is a
live interleaving (each download thread begins only after the previous
result was reported) in which the reporter hits its stop check with the
outstanding counter at zero after only two results, breaks, and the last
two results are never reported: the reporter does not consume exactly the
number of tasks submitted. -/
theorem c2_reporter_undercount :
    dlStarts reporterBugSchedule = 4
    ∧ dlFinishes reporterBugSchedule = 4
    ∧ dlConsumesEnabled dlInit reporterBugSchedule = true
    ∧ (dlRun reporterBugSchedule).done = true
    ∧ (dlRun reporterBugSchedule).consumed = [str "cli.jar", str "integrations.apk"]
    ∧ (dlRun reporterBugSchedule).queue = [str "patches.jar", str "youtube.apk"] := by
  decide

/-- C4 counterexample: with exit code 1 and the artifact present,
`ArgParser.run` still succeeds and relocates the artifact instead of
failing with a patch-process error. -/
theorem c4_counterexample :
    runFinish (str "/tmp/ws") (str "/home/user") (str "revanced.apk") 1
        [(pathJoin (str "/tmp/ws") (str "revanced.apk"), str "APK")]
      = Except.ok [(pathJoin (str "/home/user") (str "revanced.apk"), str "APK")] := by
  decide

/-- C4 amended: the tail of `ArgParser.run` never inspects the exit code:
for every exit code it behaves exactly as for exit code zero, and (when
the artifact exists and the workspace differs from the destination) it
proceeds to relocate the output artifact without any error. -/
theorem c4_amended (tmp cwd output : Str) (exitCode : Int) (fs : FS) (content : Str)
    (hsrc : fsLookup fs (pathJoin tmp (str "revanced.apk")) = some content)
    (hne : pathJoin tmp (str "revanced.apk") ≠ pathJoin cwd output) :
    runFinish tmp cwd output exitCode fs = runFinish tmp cwd output 0 fs
    ∧ ∃ fs2, runFinish tmp cwd output exitCode fs = Except.ok fs2 := by
  have h1 := fs1_lookup_apk fs (pathJoin tmp (str "revanced.apk"))
    (pathJoin cwd output) content hsrc hne
  refine ⟨rfl, ⟨fsPut (fsRemove
      (if (fsLookup fs (pathJoin cwd output)).isSome then fsRemove fs (pathJoin cwd output)
       else fs) (pathJoin tmp (str "revanced.apk"))) (pathJoin cwd output) content, ?_⟩⟩
  simp only [runFinish, h1]

/-- C4 witness: the amended theorem at exit code 137 on the concrete file
system. -/
theorem c4_amended_witness :
    runFinish (str "/tmp/ws") (str "/home/user") (str "revanced.apk") 137 fsFixture
      = runFinish (str "/tmp/ws") (str "/home/user") (str "revanced.apk") 0 fsFixture
    ∧ ∃ fs2, runFinish (str "/tmp/ws") (str "/home/user") (str "revanced.apk") 137 fsFixture
        = Except.ok fs2 :=
  c4_amended (str "/tmp/ws") (str "/home/user") (str "revanced.apk") 137 fsFixture
    (str "NEWAPK") (by decide) (by decide)

/-- C5 counterexample: on a manifest whose first line is malformed, the
loader differs from the spec-order reading (discard the first two manifest
rows, then skip malformed rows): the code filters malformed rows first and
then drops the first two surviving rows. -/
theorem c5_counterexample :
    Patches.init manifestWithBadFirstLine ≠ loadPerSpecOrder manifestWithBadFirstLine := by
  decide

/-- C5 amended: catalog loading silently skips every row that does not
yield exactly four pipe-delimited fields, discards the first two of the
remaining well-formed rows, and partitions the rest by the marker
substring; on the manifest with a well-formed header and separator
followed by one secondary-variant row and one primary-variant row, the two
lists have exactly one descriptor each. -/
theorem c5_amended (manifest : List Str) :
    Patches.init manifest
      = (((manifest.filterMap parseRow).drop 2).filter
            (fun p => !strContains (str "music") p.app),
         ((manifest.filterMap parseRow).drop 2).filter
            (fun p => strContains (str "music") p.app))
    ∧ Patches.init manifestOneEach
      = ([⟨str "other-patch", str "more things", str "youtube", str "all"⟩],
         [⟨str "some-patch", str "does things", str "music", str "6.15"⟩]) := by
  constructor
  · simp only [Patches.init]
    simpa using foldl_route (fun p => strContains (str "music") p.app)
      ((manifest.filterMap parseRow).drop 2) ([], [])
  · decide

/-- C6: the external command line is `java` followed by exactly the five
fixed flag/value pairs over the workspace files, in order, then one
`-e NAME` pair per excluded patch name and nothing else. -/
theorem c6_command (tmp : Str) (names : List Str) :
    runCommand tmp (excludeAll names)
      = str "java" ::
          ([str "-jar", pathJoin tmp (str "cli.jar"),
            str "-a", pathJoin tmp (str "youtube.apk"),
            str "-o", pathJoin tmp (str "revanced.apk"),
            str "-b", pathJoin tmp (str "patches.jar"),
            str "-m", pathJoin tmp (str "integrations.apk")]
           ++ names.flatMap (fun n => [str "-e", n])) := by
  simp only [runCommand, runArgs_excludeAll]

/-- C7: after the external process terminates, the artifact at the fixed
workspace path moves to the destination directory under the output name;
a pre-existing destination file is replaced, the workspace copy is gone,
and every other path is untouched. -/
theorem c7_relocate (tmp cwd output : Str) (exitCode : Int) (fs : FS) (content : Str)
    (hsrc : fsLookup fs (pathJoin tmp (str "revanced.apk")) = some content)
    (hne : pathJoin tmp (str "revanced.apk") ≠ pathJoin cwd output) :
    ∃ fs2, runFinish tmp cwd output exitCode fs = Except.ok fs2
      ∧ fsLookup fs2 (pathJoin cwd output) = some content
      ∧ fsLookup fs2 (pathJoin tmp (str "revanced.apk")) = none
      ∧ ∀ p, p ≠ pathJoin cwd output → p ≠ pathJoin tmp (str "revanced.apk") →
          fsLookup fs2 p = fsLookup fs p := by
  have h1 := fs1_lookup_apk fs (pathJoin tmp (str "revanced.apk"))
    (pathJoin cwd output) content hsrc hne
  refine ⟨fsPut (fsRemove
      (if (fsLookup fs (pathJoin cwd output)).isSome then fsRemove fs (pathJoin cwd output)
       else fs) (pathJoin tmp (str "revanced.apk"))) (pathJoin cwd output) content,
    by simp only [runFinish, h1], ?_, ?_, ?_⟩
  · rw [fsLookup_fsPut, if_pos rfl]
  · rw [fsLookup_fsPut, if_neg hne, fsLookup_fsRemove, if_pos rfl]
  · intro p hpt hpa
    rw [fsLookup_fsPut, if_neg hpt, fsLookup_fsRemove, if_neg hpa]
    by_cases hT : (fsLookup fs (pathJoin cwd output)).isSome
    · rw [if_pos hT, fsLookup_fsRemove, if_neg hpt]
    · rw [if_neg hT]

/-- C7 witness: the relocation theorem on the concrete file system holding
the fresh artifact, a stale destination file and an unrelated file. -/
theorem c7_relocate_witness :
    ∃ fs2, runFinish (str "/tmp/ws") (str "/home/user") (str "revanced.apk") 0 fsFixture
        = Except.ok fs2
      ∧ fsLookup fs2 (pathJoin (str "/home/user") (str "revanced.apk"))
          = some (str "NEWAPK")
      ∧ fsLookup fs2 (pathJoin (str "/tmp/ws") (str "revanced.apk")) = none
      ∧ ∀ p, p ≠ pathJoin (str "/home/user") (str "revanced.apk") →
          p ≠ pathJoin (str "/tmp/ws") (str "revanced.apk") →
          fsLookup fs2 p = fsLookup fsFixture p :=
  c7_relocate (str "/tmp/ws") (str "/home/user") (str "revanced.apk") 0 fsFixture
    (str "NEWAPK") (by decide) (by decide)

/-- C8: version lookup returns the version of the first descriptor of the
chosen variant whose version is not the sentinel, and signals
no-version-found (the `next` call escapes) when every descriptor of that
variant carries the sentinel. -/
theorem c8_version (yt ytm : List Patch) (music : Bool) :
    ((∀ p ∈ (if music then ytm else yt), p.version = str "all") →
      Patches.version yt ytm music = none)
    ∧ (∀ pre p post, (if music then ytm else yt) = pre ++ p :: post →
        (∀ q ∈ pre, q.version = str "all") → p.version ≠ str "all" →
        Patches.version yt ytm music = some p.version) := by
  constructor
  · intro h
    simp only [Patches.version]
    rw [List.find?_eq_none.mpr]
    · rfl
    · intro x hx
      simp [h x hx]
  · intro pre p post hl hpre hp
    simp only [Patches.version, hl]
    rw [find?_first _ pre p post (fun q hq => by simp [hpre q hq]) (by simp [hp])]
    rfl

/-- C8 witness: the theorem applied once to a variant whose first non-
sentinel descriptor is in second position, and once to a variant whose
only descriptor carries the sentinel. -/
theorem c8_version_witness :
    Patches.version [patchA, patchB] [] false = some patchB.version
    ∧ Patches.version [] [patchA] true = none := by
  have h1 := (c8_version [patchA, patchB] [] false).2 [patchA] patchB []
    (by decide) (by decide) (by decide)
  have h2 := (c8_version [] [patchA] true).1 (by decide)
  exact ⟨h1, h2⟩

/-- C10: the variant-specific package download is always stored under the
single fixed name `youtube.apk` (also for the music variant), and that
name, joined to the workspace, is exactly the value the invoker passes
right after the `-a` flag. -/
theorem c10_package_path (version : Str) (music : Bool) (tmp : Str) (names : List Str) :
    apkmirrorDest version music = str "youtube.apk"
    ∧ (runArgs tmp (excludeAll names)).get? 2 = some (str "-a")
    ∧ (runArgs tmp (excludeAll names)).get? 3
        = some (pathJoin tmp (apkmirrorDest version music)) := by
  refine ⟨rfl, ?_, ?_⟩ <;> rw [runArgs_excludeAll] <;> rfl
